import Mathlib

/-!
Verification of the seal-verification and mapping layer of `src/mem.rs`
(shmem-ipc).  The five functions of the source — `verify_seal`,
`read_memfd`, `raw_memfd`, `write_once`, `write_once_custom` — are thin
policy layers over two external kernel primitives (anonymous sealable
file descriptors and memory mapping).  The primitives are embedded as a
deterministic state machine over a `Memfd` record (length, contents,
seal set, live writable mapping count), following the spec's description
of their interfaces; an `Env` record of flags additionally lets the
environment inject the failures (resource exhaustion and the like) that
the model cannot derive from the region state.  Every operation also
appends the kernel calls it issues to an explicit event trace, so that
claims about call order and about which calls are or are not made can be
stated and proved.
-/

set_option autoImplicit false
set_option maxHeartbeats 1000000

namespace ShmemIpc

/-- Kernel file seals, mirroring `mfd::FileSeal` as used in `src/mem.rs`. -/
inductive FileSeal where
  | SealSeal
  | SealShrink
  | SealGrow
  | SealWrite
  deriving DecidableEq

/-- Error kinds surfaced by the operations (the spec's section 7 taxonomy). -/
inductive Error where
  | SealQueryFailed
  | SealAddFailed
  | RegionCreateFailed
  | ResizeFailed
  | MapFailed
  deriving DecidableEq

/-- Creation options of a memfd: the two fields the source configures
(`allow_sealing`, `close_on_exec`). -/
structure MemfdOptions where
  allowSealing : Bool
  closeOnExec : Bool
  deriving DecidableEq

/-- Observable events: one per kernel call the code issues, plus the run of
the user initializer closure (which is not itself a kernel call). -/
inductive Event where
  | querySeals
  | addSeal (s : FileSeal)
  | addSeals (ss : List FileSeal)
  | create (name : String) (opts : MemfdOptions)
  | setLen (n : Nat)
  | mapMut
  | mapCopyReadOnly
  | mapRaw (len : Nat)
  | dropMap
  | initRun
  deriving DecidableEq

/-- Whether an event is a call into the kernel.  Every event except the run
of the user-supplied initializer closure is one. -/
def Event.isKernelCall : Event → Bool
  | .initRun => false
  | _ => true

/-- Kernel state of one memfd region: current byte length, contents (bytes
as naturals), current seal set, and the number of live shared writable
mappings of it. -/
structure Memfd where
  len : Nat
  data : Nat → Nat
  seals : List FileSeal
  liveWritable : Nat

/-- A read-only copy-on-write mapping (`mmap::Mmap`): a snapshot view of the
region's bytes at map time. -/
structure Mmap where
  len : Nat
  data : Nat → Nat

/-- A raw writable mapping (`mmap::MmapRaw`): a view of explicit length. -/
structure MmapRaw where
  len : Nat

/-- Environment nondeterminism: whether each kernel primitive succeeds
beyond its modelled deterministic refusal conditions.  A `false` flag
injects the corresponding environmental failure (e.g. resource
exhaustion) into every call of that primitive. -/
structure Env where
  queryOk : Bool
  createOk : Bool
  resizeOk : Bool
  mapOk : Bool
  sealOk : Bool
  deriving DecidableEq

/-- The all-successful environment. -/
def envAll : Env := ⟨true, true, true, true, true⟩

/-- Insert a seal into a seal set, keeping the set duplicate-free. -/
def sealInsert (s : FileSeal) (l : List FileSeal) : List FileSeal :=
  if s ∈ l then l else l ++ [s]

/-- Union of a seal set with a batch of requested seals. -/
def sealUnion (l : List FileSeal) (ss : List FileSeal) : List FileSeal :=
  ss.foldl (fun acc s => sealInsert s acc) l

/-- The initial seal set of a freshly created memfd: empty when sealing is
allowed, otherwise the kernel pre-seals the object with `SealSeal`. -/
def fresh_seals (opts : MemfdOptions) : List FileSeal :=
  if opts.allowSealing then [] else [FileSeal.SealSeal]

/-- Modelled from the spec: the kernel seal-set query (`memfd.seals()` in
mem.rs, F_GET_SEALS); returns the region's current seal set. -/
def get_seals (env : Env) (m : Memfd) (tr : List Event) :
    Except Error (List FileSeal) × Memfd × List Event :=
  if env.queryOk then (.ok m.seals, m, tr ++ [Event.querySeals])
  else (.error Error.SealQueryFailed, m, tr ++ [Event.querySeals])

/-- Modelled from the spec: kernel single-seal addition (`memfd.add_seal`):
refused when the seal set is frozen (`SealSeal` present) or when adding
`SealWrite` while a shared writable mapping is live. -/
def add_seal (env : Env) (m : Memfd) (tr : List Event) (s : FileSeal) :
    Except Error Unit × Memfd × List Event :=
  if env.sealOk = false ∨ FileSeal.SealSeal ∈ m.seals ∨
      (s = FileSeal.SealWrite ∧ m.liveWritable ≠ 0) then
    (.error Error.SealAddFailed, m, tr ++ [Event.addSeal s])
  else
    (.ok (), { m with seals := sealInsert s m.seals }, tr ++ [Event.addSeal s])

/-- Modelled from the spec: kernel batch seal addition (`memfd.add_seals`,
one F_ADD_SEALS call): refused when the seal set is frozen or when the
batch contains `SealWrite` while a shared writable mapping is live. -/
def add_seals (env : Env) (m : Memfd) (tr : List Event) (ss : List FileSeal) :
    Except Error Unit × Memfd × List Event :=
  if env.sealOk = false ∨ FileSeal.SealSeal ∈ m.seals ∨
      (FileSeal.SealWrite ∈ ss ∧ m.liveWritable ≠ 0) then
    (.error Error.SealAddFailed, m, tr ++ [Event.addSeals ss])
  else
    (.ok (), { m with seals := sealUnion m.seals ss }, tr ++ [Event.addSeals ss])

/-- Modelled from the spec: memfd creation (`memfd_options.create(name)`):
a fresh zero-length region, pre-sealed iff sealing is not allowed. -/
def memfd_create (env : Env) (tr : List Event) (opts : MemfdOptions) (name : String) :
    Except Error Memfd × List Event :=
  if env.createOk then
    (.ok { len := 0, data := fun _ => 0, seals := fresh_seals opts, liveWritable := 0 },
      tr ++ [Event.create name opts])
  else (.error Error.RegionCreateFailed, tr ++ [Event.create name opts])

/-- Modelled from the spec: resize (`set_len`, ftruncate): refused by the
`SealGrow`/`SealShrink` seals; newly extended bytes are zero-filled. -/
def set_len (env : Env) (m : Memfd) (tr : List Event) (n : Nat) :
    Except Error Unit × Memfd × List Event :=
  if env.resizeOk = false ∨ (m.len < n ∧ FileSeal.SealGrow ∈ m.seals) ∨
      (n < m.len ∧ FileSeal.SealShrink ∈ m.seals) then
    (.error Error.ResizeFailed, m, tr ++ [Event.setLen n])
  else
    (.ok (), { m with len := n, data := fun i => if i < m.len ∧ i < n then m.data i else 0 },
      tr ++ [Event.setLen n])

/-- Modelled from the spec: exclusive mutable mapping of the whole region
(`MmapMut::map_mut`): a shared writable mapping, refused when the region
is write-sealed or empty. -/
def map_mut (env : Env) (m : Memfd) (tr : List Event) :
    Except Error Unit × Memfd × List Event :=
  if env.mapOk = false ∨ m.len = 0 ∨ FileSeal.SealWrite ∈ m.seals then
    (.error Error.MapFailed, m, tr ++ [Event.mapMut])
  else
    (.ok (), { m with liveWritable := m.liveWritable + 1 }, tr ++ [Event.mapMut])

/-- Modelled from the spec: copy-on-write read-only mapping
(`map_copy_read_only`): private, so not blocked by any seal; sized to the
region's current byte length; refused on an empty region. -/
def map_copy_read_only (env : Env) (m : Memfd) (tr : List Event) :
    Except Error Mmap × Memfd × List Event :=
  if env.mapOk = false ∨ m.len = 0 then
    (.error Error.MapFailed, m, tr ++ [Event.mapCopyReadOnly])
  else
    (.ok { len := m.len, data := m.data }, m, tr ++ [Event.mapCopyReadOnly])

/-- Modelled from the spec: raw writable mapping of explicit length
(`map_raw`): a shared writable mapping, refused when the region carries
the `SealWrite` seal (no writable mapping over a write-sealed object). -/
def map_raw (env : Env) (m : Memfd) (tr : List Event) (len : Nat) :
    Except Error MmapRaw × Memfd × List Event :=
  if env.mapOk = false ∨ len = 0 ∨ FileSeal.SealWrite ∈ m.seals then
    (.error Error.MapFailed, m, tr ++ [Event.mapRaw len])
  else
    (.ok { len := len }, { m with liveWritable := m.liveWritable + 1 },
      tr ++ [Event.mapRaw len])

/-- `verify_seal` from src/mem.rs: query the seal set; if the seal is
already present return Ok; otherwise try to add exactly that seal. -/
def verify_seal (env : Env) (m : Memfd) (tr : List Event) (s : FileSeal) :
    Except Error Unit × Memfd × List Event :=
  match get_seals env m tr with
  | (.error e, m1, tr1) => (.error e, m1, tr1)
  | (.ok ss, m1, tr1) =>
    if s ∈ ss then (.ok (), m1, tr1)
    else add_seal env m1 tr1 s

/-- `read_memfd` from src/mem.rs: ensure the `SealShrink` seal, then the
`SealWrite` seal, then create the copy-on-write read-only mapping. -/
def read_memfd (env : Env) (m : Memfd) (tr : List Event) :
    Except Error Mmap × Memfd × List Event :=
  match verify_seal env m tr FileSeal.SealShrink with
  | (.error e, m1, tr1) => (.error e, m1, tr1)
  | (.ok _, m1, tr1) =>
    match verify_seal env m1 tr1 FileSeal.SealWrite with
    | (.error e, m2, tr2) => (.error e, m2, tr2)
    | (.ok _, m2, tr2) => map_copy_read_only env m2 tr2

/-- `raw_memfd` from src/mem.rs: ensure the `SealShrink` seal only, then
create the raw writable mapping of the requested length. -/
def raw_memfd (env : Env) (m : Memfd) (tr : List Event) (len : Nat) :
    Except Error MmapRaw × Memfd × List Event :=
  match verify_seal env m tr FileSeal.SealShrink with
  | (.error e, m1, tr1) => (.error e, m1, tr1)
  | (.ok _, m1, tr1) => map_raw env m1 tr1 len

/-- `write_once_custom` from src/mem.rs: create the memfd, set its length,
map it mutably, run the initializer, drop the mapping, and finally add
the requested seals when the set is nonempty.  The initializer is
modelled as a function from the buffer length and current contents to new
contents; its writes land on the indices below the buffer length. -/
def write_once_custom (env : Env) (size : Nat) (name : String)
    (memfd_options : MemfdOptions) (seals : List FileSeal)
    (f : Nat → (Nat → Nat) → Nat → Nat) :
    Except Error Memfd × List Event :=
  match memfd_create env [] memfd_options name with
  | (.error e, tr) => (.error e, tr)
  | (.ok m, tr) =>
    match set_len env m tr size with
    | (.error e, _, tr1) => (.error e, tr1)
    | (.ok _, m1, tr1) =>
      match map_mut env m1 tr1 with
      | (.error e, _, tr2) => (.error e, tr2)
      | (.ok _, m2, tr2) =>
        let m3 : Memfd :=
          { m2 with data := fun i => if i < m2.len then f m2.len m2.data i else m2.data i }
        let tr3 := tr2 ++ [Event.initRun]
        let m4 : Memfd := { m3 with liveWritable := m3.liveWritable - 1 }
        let tr4 := tr3 ++ [Event.dropMap]
        if seals.isEmpty then (.ok m4, tr4)
        else
          match add_seals env m4 tr4 seals with
          | (.error e, _, tr5) => (.error e, tr5)
          | (.ok _, m5, tr5) => (.ok m5, tr5)

/-- The seal set `write_once` inserts into its `SealsHashSet`, in the
insertion order of the source. -/
def write_once_seals : List FileSeal :=
  [FileSeal.SealGrow, FileSeal.SealShrink, FileSeal.SealSeal, FileSeal.SealWrite]

/-- `write_once` from src/mem.rs: `write_once_custom` with sealing allowed,
close-on-exec enabled, and the four-seal fully-frozen profile. -/
def write_once (env : Env) (size : Nat) (name : String)
    (f : Nat → (Nat → Nat) → Nat → Nat) :
    Except Error Memfd × List Event :=
  write_once_custom env size name { allowSealing := true, closeOnExec := true }
    write_once_seals f

/-! ### Helper lemmas about seal sets -/

theorem mem_sealInsert_self (s : FileSeal) (l : List FileSeal) : s ∈ sealInsert s l := by
  unfold sealInsert
  split
  · assumption
  · simp

theorem mem_sealInsert_of_mem {a : FileSeal} {l : List FileSeal} (s : FileSeal)
    (h : a ∈ l) : a ∈ sealInsert s l := by
  unfold sealInsert
  split
  · exact h
  · exact List.mem_append_left _ h

theorem mem_fresh_seals (s : FileSeal) (opts : MemfdOptions) :
    s ∈ fresh_seals opts ↔ opts.allowSealing = false ∧ s = FileSeal.SealSeal := by
  unfold fresh_seals
  rcases opts with ⟨as, ce⟩
  cases as <;> simp

/-! ### Case lemmas for `verify_seal` -/

theorem verify_seal_qfail {env : Env} (m : Memfd) (tr : List Event) (s : FileSeal)
    (hq : env.queryOk = false) :
    verify_seal env m tr s = (.error Error.SealQueryFailed, m, tr ++ [Event.querySeals]) := by
  unfold verify_seal get_seals
  rw [hq]
  simp

theorem verify_seal_fast {env : Env} {m : Memfd} (tr : List Event) {s : FileSeal}
    (hq : env.queryOk = true) (hmem : s ∈ m.seals) :
    verify_seal env m tr s = (.ok (), m, tr ++ [Event.querySeals]) := by
  unfold verify_seal get_seals
  rw [hq]
  simp [hmem]

theorem verify_seal_add_fail {env : Env} {m : Memfd} (tr : List Event) {s : FileSeal}
    (hq : env.queryOk = true) (hmem : s ∉ m.seals)
    (hbad : env.sealOk = false ∨ FileSeal.SealSeal ∈ m.seals ∨
      (s = FileSeal.SealWrite ∧ m.liveWritable ≠ 0)) :
    verify_seal env m tr s =
      (.error Error.SealAddFailed, m, tr ++ [Event.querySeals, Event.addSeal s]) := by
  unfold verify_seal get_seals add_seal
  rw [hq]
  simp [hmem]
  intro h1 h2
  rcases hbad with hb | hb | hb
  · rw [h1] at hb
    exact absurd hb (by simp)
  · exact absurd hb h2
  · exact ⟨hb.1, hb.2⟩

theorem verify_seal_add_ok {env : Env} {m : Memfd} (tr : List Event) {s : FileSeal}
    (hq : env.queryOk = true) (hmem : s ∉ m.seals)
    (hgood : ¬(env.sealOk = false ∨ FileSeal.SealSeal ∈ m.seals ∨
      (s = FileSeal.SealWrite ∧ m.liveWritable ≠ 0))) :
    verify_seal env m tr s =
      (.ok (), { m with seals := sealInsert s m.seals },
        tr ++ [Event.querySeals, Event.addSeal s]) := by
  unfold verify_seal get_seals add_seal
  rw [hq]
  simp [hmem]
  push_neg at hgood
  exact ⟨by simpa using hgood.1, hgood.2.1, hgood.2.2⟩

/-- Inversion for a successful `verify_seal`: the query succeeded, the seal
is present afterwards, every other component of the region state is
untouched, old seals persist, and the trace grew by the query event,
optionally followed by one seal-addition event. -/
theorem verify_seal_ok_inv {env : Env} {m : Memfd} {tr : List Event} {s : FileSeal}
    {u : Unit} {m1 : Memfd} {tr1 : List Event}
    (h : verify_seal env m tr s = (.ok u, m1, tr1)) :
    env.queryOk = true ∧ s ∈ m1.seals ∧
    m1.len = m.len ∧ m1.data = m.data ∧ m1.liveWritable = m.liveWritable ∧
    (∀ a, a ∈ m.seals → a ∈ m1.seals) ∧
    (tr1 = tr ++ [Event.querySeals] ∨ tr1 = tr ++ [Event.querySeals, Event.addSeal s]) := by
  by_cases hq : env.queryOk = true
  · by_cases hmem : s ∈ m.seals
    · rw [verify_seal_fast tr hq hmem] at h
      have hm1 : m = m1 := congrArg (fun p => p.2.1) h
      have htr : tr ++ [Event.querySeals] = tr1 := congrArg (fun p => p.2.2) h
      subst hm1; subst htr
      exact ⟨hq, hmem, rfl, rfl, rfl, fun a ha => ha, Or.inl rfl⟩
    · by_cases hbad : env.sealOk = false ∨ FileSeal.SealSeal ∈ m.seals ∨
        (s = FileSeal.SealWrite ∧ m.liveWritable ≠ 0)
      · rw [verify_seal_add_fail tr hq hmem hbad] at h
        have hres := congrArg (fun p => p.1) h
        simp at hres
      · rw [verify_seal_add_ok tr hq hmem hbad] at h
        have hm1 : ({ m with seals := sealInsert s m.seals } : Memfd) = m1 :=
          congrArg (fun p => p.2.1) h
        have htr : tr ++ [Event.querySeals, Event.addSeal s] = tr1 :=
          congrArg (fun p => p.2.2) h
        subst hm1; subst htr
        exact ⟨hq, mem_sealInsert_self s m.seals, rfl, rfl, rfl,
          fun a ha => mem_sealInsert_of_mem s ha, Or.inr rfl⟩
  · rw [verify_seal_qfail m tr s (by simpa using hq)] at h
    have hres := congrArg (fun p => p.1) h
    simp at hres

/-- The trace of any `verify_seal` call grows by the query event, optionally
followed by one seal-addition event for the requested seal. -/
theorem verify_seal_tr (env : Env) (m : Memfd) (tr : List Event) (s : FileSeal) :
    (verify_seal env m tr s).2.2 = tr ++ [Event.querySeals] ∨
    (verify_seal env m tr s).2.2 = tr ++ [Event.querySeals, Event.addSeal s] := by
  by_cases hq : env.queryOk = true
  · by_cases hmem : s ∈ m.seals
    · rw [verify_seal_fast tr hq hmem]
      exact Or.inl rfl
    · by_cases hbad : env.sealOk = false ∨ FileSeal.SealSeal ∈ m.seals ∨
        (s = FileSeal.SealWrite ∧ m.liveWritable ≠ 0)
      · rw [verify_seal_add_fail tr hq hmem hbad]
        exact Or.inr rfl
      · rw [verify_seal_add_ok tr hq hmem hbad]
        exact Or.inr rfl
  · rw [verify_seal_qfail m tr s (by simpa using hq)]
    exact Or.inl rfl

/-! ### Case lemmas for `write_once_custom` -/

theorem woc_create_fail {env : Env} (size : Nat) (name : String) (opts : MemfdOptions)
    (seals : List FileSeal) (f : Nat → (Nat → Nat) → Nat → Nat)
    (hc : env.createOk = false) :
    write_once_custom env size name opts seals f =
      (.error Error.RegionCreateFailed, [Event.create name opts]) := by
  unfold write_once_custom memfd_create
  rw [hc]
  simp

theorem woc_resize_fail {env : Env} (size : Nat) (name : String) (opts : MemfdOptions)
    (seals : List FileSeal) (f : Nat → (Nat → Nat) → Nat → Nat)
    (hc : env.createOk = true) (hr : env.resizeOk = false) :
    write_once_custom env size name opts seals f =
      (.error Error.ResizeFailed, [Event.create name opts, Event.setLen size]) := by
  unfold write_once_custom memfd_create set_len
  rw [hc, hr]
  simp

theorem woc_map_fail {env : Env} (size : Nat) (name : String) (opts : MemfdOptions)
    (seals : List FileSeal) (f : Nat → (Nat → Nat) → Nat → Nat)
    (hc : env.createOk = true) (hr : env.resizeOk = true)
    (hm : env.mapOk = false ∨ size = 0) :
    write_once_custom env size name opts seals f =
      (.error Error.MapFailed, [Event.create name opts, Event.setLen size, Event.mapMut]) := by
  unfold write_once_custom memfd_create set_len map_mut
  rw [hc, hr]
  rcases hm with hm | hm
  · rw [hm]
    simp [mem_fresh_seals]
  · subst hm
    simp [mem_fresh_seals]

theorem woc_success_empty {env : Env} (size : Nat) (name : String) (opts : MemfdOptions)
    (f : Nat → (Nat → Nat) → Nat → Nat)
    (hc : env.createOk = true) (hr : env.resizeOk = true) (hm : env.mapOk = true)
    (hsz : size ≠ 0) :
    ∃ m : Memfd, write_once_custom env size name opts [] f =
        (.ok m, [Event.create name opts, Event.setLen size, Event.mapMut,
          Event.initRun, Event.dropMap]) ∧
      m.len = size ∧ m.seals = fresh_seals opts ∧ m.liveWritable = 0 := by
  unfold write_once_custom memfd_create set_len map_mut
  rw [hc, hr, hm]
  simp [mem_fresh_seals, hsz]

theorem woc_seal_fail {env : Env} (size : Nat) (name : String) (opts : MemfdOptions)
    (seals : List FileSeal) (f : Nat → (Nat → Nat) → Nat → Nat)
    (hc : env.createOk = true) (hr : env.resizeOk = true) (hm : env.mapOk = true)
    (hsz : size ≠ 0) (hne : seals ≠ [])
    (hbad : env.sealOk = false ∨ opts.allowSealing = false) :
    write_once_custom env size name opts seals f =
      (.error Error.SealAddFailed, [Event.create name opts, Event.setLen size,
        Event.mapMut, Event.initRun, Event.dropMap, Event.addSeals seals]) := by
  unfold write_once_custom memfd_create set_len map_mut add_seals
  rw [hc, hr, hm]
  rcases hbad with hb | hb <;>
    simp [mem_fresh_seals, hsz, hne, hb, fresh_seals]

theorem woc_seal_ok {env : Env} (size : Nat) (name : String) (opts : MemfdOptions)
    (seals : List FileSeal) (f : Nat → (Nat → Nat) → Nat → Nat)
    (hc : env.createOk = true) (hr : env.resizeOk = true) (hm : env.mapOk = true)
    (hsz : size ≠ 0) (hne : seals ≠ [])
    (hso : env.sealOk = true) (has : opts.allowSealing = true) :
    ∃ m : Memfd, write_once_custom env size name opts seals f =
        (.ok m, [Event.create name opts, Event.setLen size, Event.mapMut,
          Event.initRun, Event.dropMap, Event.addSeals seals]) ∧
      m.len = size ∧ m.seals = sealUnion [] seals ∧ m.liveWritable = 0 := by
  unfold write_once_custom memfd_create set_len map_mut add_seals
  rw [hc, hr, hm, hso]
  simp [mem_fresh_seals, hsz, hne, fresh_seals, has]

/-- Inversion for a successful `write_once_custom`: every pipeline step must
have succeeded, the resulting region has the requested length and no live
writable mapping, and the trace shows the full step order, with the batch
seal addition present exactly when the seal set was nonempty. -/
theorem woc_ok_inv {env : Env} {size : Nat} {name : String} {opts : MemfdOptions}
    {seals : List FileSeal} {f : Nat → (Nat → Nat) → Nat → Nat} {m : Memfd}
    {tr : List Event}
    (h : write_once_custom env size name opts seals f = (.ok m, tr)) :
    m.len = size ∧ m.liveWritable = 0 ∧
    ((seals = [] ∧ m.seals = fresh_seals opts ∧
        tr = [Event.create name opts, Event.setLen size, Event.mapMut,
          Event.initRun, Event.dropMap]) ∨
      (seals ≠ [] ∧ opts.allowSealing = true ∧ env.sealOk = true ∧
        m.seals = sealUnion [] seals ∧
        tr = [Event.create name opts, Event.setLen size, Event.mapMut,
          Event.initRun, Event.dropMap, Event.addSeals seals])) := by
  by_cases hc : env.createOk = true
  · by_cases hr : env.resizeOk = true
    · by_cases hmo : env.mapOk = true
      · by_cases hsz : size = 0
        · rw [woc_map_fail size name opts seals f hc hr (Or.inr hsz)] at h
          have hres := congrArg (fun p => p.1) h
          simp at hres
        · by_cases hne : seals = []
          · subst hne
            obtain ⟨m', hEq, hlen, hseals, hlive⟩ :=
              woc_success_empty size name opts f hc hr hmo hsz
            rw [hEq] at h
            have hm : m' = m := by
              have := congrArg (fun p => p.1) h
              simpa using this
            have htr := congrArg (fun p => p.2) h
            subst hm
            exact ⟨hlen, hlive, Or.inl ⟨rfl, hseals, htr.symm⟩⟩
          · by_cases hso : env.sealOk = true
            · by_cases has : opts.allowSealing = true
              · obtain ⟨m', hEq, hlen, hseals, hlive⟩ :=
                  woc_seal_ok size name opts seals f hc hr hmo hsz hne hso has
                rw [hEq] at h
                have hm : m' = m := by
                  have := congrArg (fun p => p.1) h
                  simpa using this
                have htr := congrArg (fun p => p.2) h
                subst hm
                exact ⟨hlen, hlive, Or.inr ⟨hne, has, hso, hseals, htr.symm⟩⟩
              · rw [woc_seal_fail size name opts seals f hc hr hmo hsz hne
                  (Or.inr (by simpa using has))] at h
                have hres := congrArg (fun p => p.1) h
                simp at hres
            · rw [woc_seal_fail size name opts seals f hc hr hmo hsz hne
                (Or.inl (by simpa using hso))] at h
              have hres := congrArg (fun p => p.1) h
              simp at hres
      · rw [woc_map_fail size name opts seals f hc hr
          (Or.inl (by simpa using hmo))] at h
        have hres := congrArg (fun p => p.1) h
        simp at hres
    · rw [woc_resize_fail size name opts seals f hc (by simpa using hr)] at h
      have hres := congrArg (fun p => p.1) h
      simp at hres
  · rw [woc_create_fail size name opts seals f (by simpa using hc)] at h
    have hres := congrArg (fun p => p.1) h
    simp at hres

/-! ### Step equations for `read_memfd` and `raw_memfd` -/

theorem read_memfd_err1 {env : Env} {m : Memfd} {tr : List Event} {e : Error}
    {m1 : Memfd} {tr1 : List Event}
    (hv : verify_seal env m tr FileSeal.SealShrink = (.error e, m1, tr1)) :
    read_memfd env m tr = (.error e, m1, tr1) := by
  unfold read_memfd
  rw [hv]

theorem read_memfd_ok1 {env : Env} {m : Memfd} {tr : List Event} {u : Unit}
    {m1 : Memfd} {tr1 : List Event}
    (hv : verify_seal env m tr FileSeal.SealShrink = (.ok u, m1, tr1)) :
    read_memfd env m tr =
      (match verify_seal env m1 tr1 FileSeal.SealWrite with
        | (.error e, m2, tr2) => (.error e, m2, tr2)
        | (.ok _, m2, tr2) => map_copy_read_only env m2 tr2) := by
  unfold read_memfd
  rw [hv]

theorem read_memfd_err2 {env : Env} {m : Memfd} {tr : List Event} {u : Unit}
    {m1 : Memfd} {tr1 : List Event} {e : Error} {m2 : Memfd} {tr2 : List Event}
    (hv : verify_seal env m tr FileSeal.SealShrink = (.ok u, m1, tr1))
    (hw : verify_seal env m1 tr1 FileSeal.SealWrite = (.error e, m2, tr2)) :
    read_memfd env m tr = (.error e, m2, tr2) := by
  rw [read_memfd_ok1 hv, hw]

theorem read_memfd_ok2 {env : Env} {m : Memfd} {tr : List Event} {u u2 : Unit}
    {m1 : Memfd} {tr1 : List Event} {m2 : Memfd} {tr2 : List Event}
    (hv : verify_seal env m tr FileSeal.SealShrink = (.ok u, m1, tr1))
    (hw : verify_seal env m1 tr1 FileSeal.SealWrite = (.ok u2, m2, tr2)) :
    read_memfd env m tr = map_copy_read_only env m2 tr2 := by
  rw [read_memfd_ok1 hv, hw]

theorem raw_memfd_err1 {env : Env} {m : Memfd} {tr : List Event} {len : Nat}
    {e : Error} {m1 : Memfd} {tr1 : List Event}
    (hv : verify_seal env m tr FileSeal.SealShrink = (.error e, m1, tr1)) :
    raw_memfd env m tr len = (.error e, m1, tr1) := by
  unfold raw_memfd
  rw [hv]

theorem raw_memfd_ok1 {env : Env} {m : Memfd} {tr : List Event} {len : Nat}
    {u : Unit} {m1 : Memfd} {tr1 : List Event}
    (hv : verify_seal env m tr FileSeal.SealShrink = (.ok u, m1, tr1)) :
    raw_memfd env m tr len = map_raw env m1 tr1 len := by
  unfold raw_memfd
  rw [hv]

/-- Inversion for a successful `read_memfd`: the mapping's length is the
region's byte length at call time, and the region afterwards carries both
the shrink and the write seal. -/
theorem read_memfd_ok_inv {env : Env} {m : Memfd} {tr : List Event}
    {mp : Mmap} {m2 : Memfd} {tr2 : List Event}
    (h : read_memfd env m tr = (.ok mp, m2, tr2)) :
    mp.len = m.len ∧ FileSeal.SealShrink ∈ m2.seals ∧ FileSeal.SealWrite ∈ m2.seals := by
  rcases hv : verify_seal env m tr FileSeal.SealShrink with ⟨eo | u, mA, trA⟩
  · rw [read_memfd_err1 hv] at h
    have hres := congrArg (fun p => p.1) h
    simp at hres
  · rcases hw : verify_seal env mA trA FileSeal.SealWrite with ⟨eo2 | u2, mB, trB⟩
    · rw [read_memfd_err2 hv hw] at h
      have hres := congrArg (fun p => p.1) h
      simp at hres
    · rw [read_memfd_ok2 hv hw] at h
      unfold map_copy_read_only at h
      obtain ⟨hqA, hmemA, hlenA, hdA, hlA, hmonoA, htrA⟩ := verify_seal_ok_inv hv
      obtain ⟨hqB, hmemB, hlenB, hdB, hlB, hmonoB, htrB⟩ := verify_seal_ok_inv hw
      split at h
      · have hres := congrArg (fun p => p.1) h
        simp at hres
      · have hmp : ({ len := mB.len, data := mB.data } : Mmap) = mp := by
          have := congrArg (fun p => p.1) h
          simpa using this
        have hm2 : mB = m2 := congrArg (fun p => p.2.1) h
        subst hm2
        refine ⟨?_, hmonoB _ hmemA, hmemB⟩
        rw [← hmp]
        simp [hlenB, hlenA]

/-- Inversion for a successful `raw_memfd`: the raw mapping has exactly the
requested length and the region afterwards carries the shrink seal. -/
theorem raw_memfd_ok_inv {env : Env} {m : Memfd} {tr : List Event} {len : Nat}
    {r : MmapRaw} {m2 : Memfd} {tr2 : List Event}
    (h : raw_memfd env m tr len = (.ok r, m2, tr2)) :
    r.len = len ∧ FileSeal.SealShrink ∈ m2.seals := by
  rcases hv : verify_seal env m tr FileSeal.SealShrink with ⟨eo | u, mA, trA⟩
  · rw [raw_memfd_err1 hv] at h
    have hres := congrArg (fun p => p.1) h
    simp at hres
  · rw [raw_memfd_ok1 hv] at h
    unfold map_raw at h
    obtain ⟨hqA, hmemA, hlenA, hdA, hlA, hmonoA, htrA⟩ := verify_seal_ok_inv hv
    split at h
    · have hres := congrArg (fun p => p.1) h
      simp at hres
    · have hr : ({ len := len } : MmapRaw) = r := by
        have := congrArg (fun p => p.1) h
        simpa using this
      have hm2 : ({ mA with liveWritable := mA.liveWritable + 1 } : Memfd) = m2 :=
        congrArg (fun p => p.2.1) h
      subst hm2
      exact ⟨hr.symm ▸ rfl, hmemA⟩

/-- The trace of a `map_raw` call grows by exactly its own kernel call. -/
theorem map_raw_tr (env : Env) (m : Memfd) (tr : List Event) (len : Nat) :
    (map_raw env m tr len).2.2 = tr ++ [Event.mapRaw len] := by
  unfold map_raw
  split <;> rfl

/-! ### Concrete fixtures used by witnesses and counterexamples -/

/-- A fixed region name for concrete runs. -/
def nm : String := "r"

/-- The initializer that writes nothing. -/
def f0 : Nat → (Nat → Nat) → Nat → Nat := fun _ data => data

/-- A region already sealed with `SealShrink` and `SealWrite`. -/
def mRW : Memfd :=
  { len := 8, data := fun _ => 0,
    seals := [FileSeal.SealShrink, FileSeal.SealWrite], liveWritable := 0 }

/-- A region whose seal set is frozen (`SealSeal`), with no other seal. -/
def mFrozen : Memfd :=
  { len := 8, data := fun _ => 0, seals := [FileSeal.SealSeal], liveWritable := 0 }

/-- A shrink-sealed region with one live writable mapping. -/
def mLive : Memfd :=
  { len := 8, data := fun _ => 0, seals := [FileSeal.SealShrink], liveWritable := 1 }

/-- A shrink-sealed region with no live writable mapping. -/
def mShrOnly : Memfd :=
  { len := 16, data := fun _ => 0, seals := [FileSeal.SealShrink], liveWritable := 0 }

/-- An entirely unsealed region. -/
def mNone : Memfd :=
  { len := 8, data := fun _ => 0, seals := [], liveWritable := 0 }

/-- Default mapping value used by `getOk`. -/
def mmapD : Mmap := { len := 0, data := fun _ => 0 }

/-- Default region value used by `getOk`. -/
def memfdD : Memfd := { len := 0, data := fun _ => 0, seals := [], liveWritable := 0 }

/-- Extract the payload of a successful result, with a default. -/
def getOk {α : Type} (d : α) : Except Error α → α
  | .ok a => a
  | .error _ => d

/-! ### Claim C1 -/

/-- Claim C1: for every region, `read_memfd` first ensures the `Shrink`
seal, then the `Write` seal, in that order; only if both ensure steps
succeed does it create the copy-on-write read-only mapping, sized to the
region's current byte length, and any seal-addition failure makes it
return that error before any mapping call is issued. -/
theorem read_memfd_seal_order (env : Env) (m : Memfd) :
    (∀ e m1 tr1, verify_seal env m [] FileSeal.SealShrink = (.error e, m1, tr1) →
        read_memfd env m [] = (.error e, m1, tr1) ∧ Event.mapCopyReadOnly ∉ tr1)
  ∧ (∀ u m1 tr1 e m2 tr2, verify_seal env m [] FileSeal.SealShrink = (.ok u, m1, tr1) →
        verify_seal env m1 tr1 FileSeal.SealWrite = (.error e, m2, tr2) →
        read_memfd env m [] = (.error e, m2, tr2) ∧ Event.mapCopyReadOnly ∉ tr2)
  ∧ (∀ u u2 m1 tr1 m2 tr2, verify_seal env m [] FileSeal.SealShrink = (.ok u, m1, tr1) →
        verify_seal env m1 tr1 FileSeal.SealWrite = (.ok u2, m2, tr2) →
        read_memfd env m [] = map_copy_read_only env m2 tr2 ∧
        (∀ mp m3 tr3, map_copy_read_only env m2 tr2 = (.ok mp, m3, tr3) →
          mp.len = m.len)) := by
  refine ⟨?_, ?_, ?_⟩
  · intro e m1 tr1 h
    refine ⟨read_memfd_err1 h, ?_⟩
    have htr : (verify_seal env m [] FileSeal.SealShrink).2.2 = tr1 := by rw [h]
    rcases verify_seal_tr env m [] FileSeal.SealShrink with h' | h' <;>
      rw [h'] at htr <;> rw [← htr] <;> decide
  · intro u m1 tr1 e m2 tr2 hv hw
    refine ⟨read_memfd_err2 hv hw, ?_⟩
    have htrA : (verify_seal env m [] FileSeal.SealShrink).2.2 = tr1 := by rw [hv]
    have htrB : (verify_seal env m1 tr1 FileSeal.SealWrite).2.2 = tr2 := by rw [hw]
    rcases verify_seal_tr env m [] FileSeal.SealShrink with hA | hA <;>
      rw [hA] at htrA <;>
      rcases verify_seal_tr env m1 tr1 FileSeal.SealWrite with hB | hB <;>
      rw [hB] at htrB <;> rw [← htrB, ← htrA] <;> decide
  · intro u u2 m1 tr1 m2 tr2 hv hw
    refine ⟨read_memfd_ok2 hv hw, ?_⟩
    intro mp m3 tr3 hmap
    obtain ⟨hqA, hmemA, hlenA, _, _, hmonoA, _⟩ := verify_seal_ok_inv hv
    obtain ⟨hqB, hmemB, hlenB, _, _, hmonoB, _⟩ := verify_seal_ok_inv hw
    unfold map_copy_read_only at hmap
    split at hmap
    · have hres := congrArg (fun p => p.1) hmap
      simp at hres
    · have hmp : ({ len := m2.len, data := m2.data } : Mmap) = mp := by
        have := congrArg (fun p => p.1) hmap
        simpa using this
      rw [← hmp]
      simp [hlenB, hlenA]

/-- Witness for C1: a frozen region fails at the Shrink step, a region with
a live writable mapping fails at the Write step, and a fully sealed region
reaches the mapping call, whose result has the region's length. -/
theorem read_memfd_seal_order_witness :
    read_memfd envAll mFrozen [] =
      (.error Error.SealAddFailed, mFrozen,
        [Event.querySeals, Event.addSeal FileSeal.SealShrink])
  ∧ read_memfd envAll mLive [] =
      (.error Error.SealAddFailed, mLive,
        [Event.querySeals, Event.querySeals, Event.addSeal FileSeal.SealWrite])
  ∧ read_memfd envAll mRW [] =
      map_copy_read_only envAll mRW [Event.querySeals, Event.querySeals]
  ∧ ({ len := 8, data := mRW.data } : Mmap).len = mRW.len := by
  refine ⟨((read_memfd_seal_order envAll mFrozen).1 Error.SealAddFailed mFrozen
      [Event.querySeals, Event.addSeal FileSeal.SealShrink] rfl).1,
    ((read_memfd_seal_order envAll mLive).2.1 () mLive [Event.querySeals]
      Error.SealAddFailed mLive
      [Event.querySeals, Event.querySeals, Event.addSeal FileSeal.SealWrite] rfl rfl).1,
    ((read_memfd_seal_order envAll mRW).2.2 () () mRW [Event.querySeals] mRW
      [Event.querySeals, Event.querySeals] rfl rfl).1,
    ((read_memfd_seal_order envAll mRW).2.2 () () mRW [Event.querySeals] mRW
      [Event.querySeals, Event.querySeals] rfl rfl).2 { len := 8, data := mRW.data } mRW
      [Event.querySeals, Event.querySeals, Event.mapCopyReadOnly] rfl⟩

/-! ### Claim C2 -/

/-- Claim C2: `raw_memfd` ensures only the `Shrink` seal before mapping:
its trace never contains a seal-addition event for any seal other than
`Shrink` and never a batch seal addition; and when the region already
carries the `Write` seal (and the Shrink step succeeds), the failure is a
mapping error produced by the mapping-creation call itself. -/
theorem raw_memfd_shrink_only (env : Env) (m : Memfd) (len : Nat) :
    (∀ s, Event.addSeal s ∈ (raw_memfd env m [] len).2.2 → s = FileSeal.SealShrink)
  ∧ (∀ ss, Event.addSeals ss ∉ (raw_memfd env m [] len).2.2)
  ∧ (∀ u m1 tr1, FileSeal.SealWrite ∈ m.seals →
        verify_seal env m [] FileSeal.SealShrink = (.ok u, m1, tr1) →
        raw_memfd env m [] len =
          (.error Error.MapFailed, m1, tr1 ++ [Event.mapRaw len])) := by
  have htrace : (raw_memfd env m [] len).2.2 = [Event.querySeals] ∨
      (raw_memfd env m [] len).2.2 = [Event.querySeals, Event.addSeal FileSeal.SealShrink] ∨
      (raw_memfd env m [] len).2.2 = [Event.querySeals, Event.mapRaw len] ∨
      (raw_memfd env m [] len).2.2 =
        [Event.querySeals, Event.addSeal FileSeal.SealShrink, Event.mapRaw len] := by
    rcases hv : verify_seal env m [] FileSeal.SealShrink with ⟨eo | u, mA, trA⟩
    · have htr : (verify_seal env m [] FileSeal.SealShrink).2.2 = trA := by rw [hv]
      rw [raw_memfd_err1 hv]
      rcases verify_seal_tr env m [] FileSeal.SealShrink with h' | h' <;>
        rw [h'] at htr <;> rw [← htr] <;> simp
    · have htr : (verify_seal env m [] FileSeal.SealShrink).2.2 = trA := by rw [hv]
      rw [raw_memfd_ok1 hv]
      rw [map_raw_tr]
      rcases verify_seal_tr env m [] FileSeal.SealShrink with h' | h' <;>
        rw [h'] at htr <;> rw [← htr] <;> simp
  refine ⟨?_, ?_, ?_⟩
  · intro s hs
    rcases htrace with h | h | h | h <;> rw [h] at hs <;> simp at hs <;> tauto
  · intro ss hs
    rcases htrace with h | h | h | h <;> rw [h] at hs <;> simp at hs
  · intro u m1 tr1 hwmem hv
    obtain ⟨_, _, _, _, _, hmono, _⟩ := verify_seal_ok_inv hv
    rw [raw_memfd_ok1 hv]
    unfold map_raw
    rw [if_pos (Or.inr (Or.inr (hmono _ hwmem)))]

/-- Witness for C2: on an unsealed region the Shrink seal is added (the
only seal-addition event), and on a write-sealed region the call fails at
the mapping step itself. -/
theorem raw_memfd_shrink_only_witness :
    FileSeal.SealShrink = FileSeal.SealShrink
  ∧ Event.addSeals write_once_seals ∉ (raw_memfd envAll mNone [] 8).2.2
  ∧ raw_memfd envAll mRW [] 8 =
      (.error Error.MapFailed, mRW, [Event.querySeals] ++ [Event.mapRaw 8]) := by
  exact ⟨(raw_memfd_shrink_only envAll mNone 8).1 FileSeal.SealShrink (by decide),
    (raw_memfd_shrink_only envAll mNone 8).2.1 write_once_seals,
    (raw_memfd_shrink_only envAll mRW 8).2.2 () mRW [Event.querySeals]
      (by decide) rfl⟩

/-! ### Claim C3 -/

/-- The initializer of claim C3: set byte 2049 to 100, touch nothing else. -/
def initC3 : Nat → (Nat → Nat) → Nat → Nat :=
  fun _ data i => if i = 2049 then 100 else data i

/-- Claim C3: `write_once 4096 name initC3` followed by `read_memfd` on the
returned region yields a mapping in which byte 2049 equals 100 and byte 5
equals 0 (bytes newly extended by the resize step are zero-filled). -/
theorem write_once_read_roundtrip (name : String) :
    ∃ m mp rest,
      (write_once envAll 4096 name initC3).1 = Except.ok m ∧
      read_memfd envAll m [] = (Except.ok mp, rest) ∧
      mp.len = 4096 ∧ mp.data 2049 = 100 ∧ mp.data 5 = 0 := by
  refine ⟨getOk memfdD (write_once envAll 4096 name initC3).1,
    getOk mmapD (read_memfd envAll (getOk memfdD (write_once envAll 4096 name initC3).1) []).1,
    (read_memfd envAll (getOk memfdD (write_once envAll 4096 name initC3).1) []).2,
    rfl, rfl, rfl, rfl, rfl⟩

/-! ### Claim C4 -/

/-- Counterexample to claim C4 as stated: there is a region and a seal for
which already the first `verify_seal` call fails (seal set frozen by
`SealSeal`, requested seal absent), so "calling it twice in a row succeeds
both times" does not hold for every region and seal. -/
theorem verify_seal_twice_fails_on_frozen :
    (verify_seal envAll mFrozen [] FileSeal.SealShrink).1 = .error Error.SealAddFailed ∧
    (verify_seal envAll mFrozen [] FileSeal.SealShrink).1 ≠ .ok () := by
  constructor
  · rfl
  · intro hcon
    have : Except.error Error.SealAddFailed = (Except.ok () : Except Error Unit) := hcon
    exact Except.noConfusion this

/-- Claim C4 (amended): whenever a `verify_seal` call succeeds, an
immediately repeated call with the same seal also succeeds, attempts no
seal addition, and leaves the region's seal set exactly as it was after
the first call; when the seal is already present it succeeds without
attempting an add. -/
theorem verify_seal_idempotent (env : Env) (m : Memfd) (tr : List Event) (s : FileSeal)
    (m1 : Memfd) (tr1 : List Event)
    (h : verify_seal env m tr s = (.ok (), m1, tr1)) :
    verify_seal env m1 tr1 s = (.ok (), m1, tr1 ++ [Event.querySeals]) ∧
    (s ∈ m.seals → verify_seal env m tr s = (.ok (), m, tr ++ [Event.querySeals])) := by
  obtain ⟨hq, hmem1, _, _, _, _, _⟩ := verify_seal_ok_inv h
  exact ⟨verify_seal_fast tr1 hq hmem1, fun hm => verify_seal_fast tr hq hm⟩

/-- Witness for the amended C4 at a concrete sealed region. -/
theorem verify_seal_idempotent_witness :
    verify_seal envAll mRW [Event.querySeals] FileSeal.SealShrink =
      (.ok (), mRW, [Event.querySeals] ++ [Event.querySeals]) ∧
    verify_seal envAll mRW [] FileSeal.SealShrink = (.ok (), mRW, [] ++ [Event.querySeals]) := by
  have h := verify_seal_idempotent envAll mRW [] FileSeal.SealShrink mRW [Event.querySeals] rfl
  exact ⟨h.1, h.2 (by decide)⟩

/-! ### Claim C5 -/

/-- Counterexample to claim C5 as stated: on a region that already carries
the requested seal, `verify_seal` succeeds but its trace is not empty — the
seal-set query is a kernel call, so "no kernel call of any kind" is false. -/
theorem verify_seal_present_queries :
    (verify_seal envAll mRW [] FileSeal.SealShrink).1 = .ok () ∧
    (verify_seal envAll mRW [] FileSeal.SealShrink).2.2 = [Event.querySeals] ∧
    Event.querySeals.isKernelCall = true ∧
    (verify_seal envAll mRW [] FileSeal.SealShrink).2.2 ≠ [] := by
  refine ⟨rfl, rfl, rfl, ?_⟩
  intro hcon
  have : ([Event.querySeals] : List Event) = [] := hcon
  exact List.noConfusion this

/-- Claim C5 (amended): when the requested seal is already present (and the
seal query succeeds), the request succeeds without any seal-addition call:
the region's seal set is unchanged and the only kernel interaction is the
read-only seal-set query. -/
theorem verify_seal_present_no_add (env : Env) (m : Memfd) (tr : List Event) (s : FileSeal)
    (hmem : s ∈ m.seals) (hq : env.queryOk = true) :
    verify_seal env m tr s = (.ok (), m, tr ++ [Event.querySeals]) ∧
    (∀ s2, Event.addSeal s2 ∉ [Event.querySeals]) ∧
    (∀ ss, Event.addSeals ss ∉ [Event.querySeals]) := by
  refine ⟨verify_seal_fast tr hq hmem, ?_, ?_⟩ <;> intro x <;> simp

/-- Witness for the amended C5 at a concrete shrink-sealed region. -/
theorem verify_seal_present_no_add_witness :
    verify_seal envAll mShrOnly [] FileSeal.SealShrink =
      (.ok (), mShrOnly, [] ++ [Event.querySeals]) :=
  (verify_seal_present_no_add envAll mShrOnly [] FileSeal.SealShrink (by decide) rfl).1

/-- An environment in which region creation fails. -/
def envNoCreate : Env := ⟨true, false, true, true, true⟩

/-- Default raw mapping value used by `getOk`. -/
def mmapRawD : MmapRaw := { len := 0 }

/-! ### Claim C6 -/

/-- Claim C6: `write_once` behaves identically to `write_once_custom` called
with sealing-enabled creation options and the seal set
`{Grow, Shrink, Seal, Write}`; on success the default policy has applied
exactly those four seals, in one batch after the write phase. -/
theorem write_once_default_policy (env : Env) (size : Nat) (name : String)
    (f : Nat → (Nat → Nat) → Nat → Nat) :
    write_once env size name f =
      write_once_custom env size name { allowSealing := true, closeOnExec := true }
        write_once_seals f
  ∧ (∀ s, s ∈ write_once_seals ↔ (s = FileSeal.SealGrow ∨ s = FileSeal.SealShrink ∨
      s = FileSeal.SealSeal ∨ s = FileSeal.SealWrite))
  ∧ (∀ m tr, write_once env size name f = (.ok m, tr) →
      m.seals = write_once_seals ∧ Event.addSeals write_once_seals ∈ tr) := by
  refine ⟨rfl, ?_, ?_⟩
  · intro s
    cases s <;> decide
  · intro m tr h
    have h' : write_once_custom env size name { allowSealing := true, closeOnExec := true }
        write_once_seals f = (.ok m, tr) := h
    obtain ⟨hlen, hlive, hcase⟩ := woc_ok_inv h'
    rcases hcase with ⟨hne, _, _⟩ | ⟨_, _, _, hseals, htr⟩
    · exact absurd hne (by decide)
    · constructor
      · rw [hseals]
        decide
      · rw [htr]
        simp

/-- Witness for C6: a concrete successful `write_once` run carries exactly
the four default seals and its trace contains the one batch addition. -/
theorem write_once_default_policy_witness :
    (getOk memfdD (write_once envAll 4 nm f0).1).seals = write_once_seals ∧
    Event.addSeals write_once_seals ∈ (write_once envAll 4 nm f0).2 :=
  (write_once_default_policy envAll 4 nm f0).2.2
    (getOk memfdD (write_once envAll 4 nm f0).1) (write_once envAll 4 nm f0).2 rfl

/-! ### Claim C7 -/

/-- Claim C7: `write_once_custom` performs its steps strictly in order —
create, resize, mutable map, initializer, drop, seal — and any step's
failure returns that error immediately with no later step executed: the
initializer never runs when creation, resizing or mutable mapping fails,
the mapping is dropped before any seal is applied, and no seals are added
after a failure. -/
theorem write_once_custom_step_order (env : Env) (size : Nat) (name : String)
    (opts : MemfdOptions) (seals : List FileSeal) (f : Nat → (Nat → Nat) → Nat → Nat) :
    (env.createOk = false → write_once_custom env size name opts seals f =
        (.error Error.RegionCreateFailed, [Event.create name opts]))
  ∧ (env.createOk = true → env.resizeOk = false →
      write_once_custom env size name opts seals f =
        (.error Error.ResizeFailed, [Event.create name opts, Event.setLen size]))
  ∧ (env.createOk = true → env.resizeOk = true → (env.mapOk = false ∨ size = 0) →
      write_once_custom env size name opts seals f =
        (.error Error.MapFailed,
          [Event.create name opts, Event.setLen size, Event.mapMut]))
  ∧ (env.createOk = true → env.resizeOk = true → env.mapOk = true → size ≠ 0 →
      seals = [] →
      ∃ m, write_once_custom env size name opts seals f =
        (.ok m, [Event.create name opts, Event.setLen size, Event.mapMut,
          Event.initRun, Event.dropMap]) ∧
        m.len = size ∧ m.seals = fresh_seals opts ∧ m.liveWritable = 0)
  ∧ (env.createOk = true → env.resizeOk = true → env.mapOk = true → size ≠ 0 →
      seals ≠ [] →
      (env.sealOk = false ∨ opts.allowSealing = false →
        write_once_custom env size name opts seals f =
          (.error Error.SealAddFailed,
            [Event.create name opts, Event.setLen size, Event.mapMut,
              Event.initRun, Event.dropMap, Event.addSeals seals])) ∧
      (env.sealOk = true → opts.allowSealing = true →
        ∃ m, write_once_custom env size name opts seals f =
          (.ok m, [Event.create name opts, Event.setLen size, Event.mapMut,
            Event.initRun, Event.dropMap, Event.addSeals seals]) ∧
          m.len = size ∧ m.seals = sealUnion [] seals ∧ m.liveWritable = 0)) := by
  refine ⟨fun hc => woc_create_fail size name opts seals f hc,
    fun hc hr => woc_resize_fail size name opts seals f hc hr,
    fun hc hr hm => woc_map_fail size name opts seals f hc hr hm,
    fun hc hr hm hsz hne => ?_,
    fun hc hr hm hsz hne => ⟨fun hbad => woc_seal_fail size name opts seals f hc hr hm hsz hne hbad,
      fun hso has => ?_⟩⟩
  · subst hne
    obtain ⟨m, hEq, hlen, hseals, hlive⟩ := woc_success_empty size name opts f hc hr hm hsz
    exact ⟨m, hEq, hlen, hseals, hlive⟩
  · obtain ⟨m, hEq, hlen, hseals, hlive⟩ :=
      woc_seal_ok size name opts seals f hc hr hm hsz hne hso has
    exact ⟨m, hEq, hlen, hseals, hlive⟩

/-- Witness for C7: creation failure aborts with only the create event; a
successful sealless run shows the five-step trace; an allow-sealing-false
run fails at the final seal step with the full six-step trace. -/
theorem write_once_custom_step_order_witness :
    write_once_custom envNoCreate 4 nm { allowSealing := true, closeOnExec := true } [] f0 =
      (.error Error.RegionCreateFailed,
        [Event.create nm { allowSealing := true, closeOnExec := true }])
  ∧ (write_once_custom envAll 4 nm { allowSealing := true, closeOnExec := true } [] f0).2 =
      [Event.create nm { allowSealing := true, closeOnExec := true }, Event.setLen 4,
        Event.mapMut, Event.initRun, Event.dropMap]
  ∧ write_once_custom envAll 4 nm { allowSealing := false, closeOnExec := true }
      [FileSeal.SealSeal] f0 =
      (.error Error.SealAddFailed,
        [Event.create nm { allowSealing := false, closeOnExec := true }, Event.setLen 4,
          Event.mapMut, Event.initRun, Event.dropMap,
          Event.addSeals [FileSeal.SealSeal]]) := by
  refine ⟨(write_once_custom_step_order envNoCreate 4 nm
      { allowSealing := true, closeOnExec := true } [] f0).1 rfl, ?_,
    ((write_once_custom_step_order envAll 4 nm
      { allowSealing := false, closeOnExec := true } [FileSeal.SealSeal] f0).2.2.2.2
      rfl rfl rfl (by decide) (by decide)).1 (Or.inr rfl)⟩
  obtain ⟨m, hEq, _⟩ := (write_once_custom_step_order envAll 4 nm
    { allowSealing := true, closeOnExec := true } [] f0).2.2.2.1 rfl rfl rfl (by decide) rfl
  rw [hEq]

/-! ### Claim C8 -/

/-- Claim C8: with an empty seal set, `write_once_custom` skips the
seal-addition step entirely — no batch addition event appears and the
region keeps exactly its freshly created seal state — while any non-empty
set (even one whose seals are already present on the region) still issues
exactly one batch seal-addition call. -/
theorem write_once_custom_empty_skips (env : Env) (size : Nat) (name : String)
    (opts : MemfdOptions) (f : Nat → (Nat → Nat) → Nat → Nat)
    (hc : env.createOk = true) (hr : env.resizeOk = true) (hm : env.mapOk = true)
    (hsz : size ≠ 0) :
    (∃ m, write_once_custom env size name opts [] f =
        (.ok m, [Event.create name opts, Event.setLen size, Event.mapMut,
          Event.initRun, Event.dropMap]) ∧
        m.seals = fresh_seals opts ∧
        (∀ ss, Event.addSeals ss ∉ (write_once_custom env size name opts [] f).2))
  ∧ (∀ seals, seals ≠ [] →
      Event.addSeals seals ∈ (write_once_custom env size name opts seals f).2 ∧
      ∃ tr', (write_once_custom env size name opts seals f).2 =
          tr' ++ [Event.addSeals seals] ∧
        (∀ ss, Event.addSeals ss ∉ tr')) := by
  constructor
  · obtain ⟨m, hEq, hlen, hseals, hlive⟩ := woc_success_empty size name opts f hc hr hm hsz
    refine ⟨m, hEq, hseals, ?_⟩
    intro ss
    rw [hEq]
    simp
  · intro seals hne
    by_cases hso : env.sealOk = true
    · by_cases has : opts.allowSealing = true
      · obtain ⟨m, hEq, _⟩ := woc_seal_ok size name opts seals f hc hr hm hsz hne hso has
        rw [hEq]
        exact ⟨by simp, [Event.create name opts, Event.setLen size, Event.mapMut,
          Event.initRun, Event.dropMap], rfl, by intro ss; simp⟩
      · rw [woc_seal_fail size name opts seals f hc hr hm hsz hne
          (Or.inr (by simpa using has))]
        exact ⟨by simp, [Event.create name opts, Event.setLen size, Event.mapMut,
          Event.initRun, Event.dropMap], rfl, by intro ss; simp⟩
    · rw [woc_seal_fail size name opts seals f hc hr hm hsz hne
        (Or.inl (by simpa using hso))]
      exact ⟨by simp, [Event.create name opts, Event.setLen size, Event.mapMut,
        Event.initRun, Event.dropMap], rfl, by intro ss; simp⟩

/-- Witness for C8: a concrete empty-set run has no batch-addition event,
while a non-empty set whose only seal is already present on the fresh
region (sealing disallowed, so the region is born `SealSeal`-sealed) still
issues the batch call. -/
theorem write_once_custom_empty_skips_witness :
    Event.addSeals [FileSeal.SealSeal] ∉
      (write_once_custom envAll 4 nm { allowSealing := true, closeOnExec := true } [] f0).2
  ∧ Event.addSeals [FileSeal.SealSeal] ∈
      (write_once_custom envAll 4 nm { allowSealing := false, closeOnExec := true }
        [FileSeal.SealSeal] f0).2 := by
  obtain ⟨m, hEq, hseals, hnone⟩ := (write_once_custom_empty_skips envAll 4 nm
    { allowSealing := true, closeOnExec := true } f0 rfl rfl rfl (by decide)).1
  obtain ⟨hmem, _⟩ := (write_once_custom_empty_skips envAll 4 nm
    { allowSealing := false, closeOnExec := true } f0 rfl rfl rfl (by decide)).2
    [FileSeal.SealSeal] (by decide)
  exact ⟨hnone [FileSeal.SealSeal], hmem⟩

/-! ### Claim C9 -/

/-- Claim C9: the mapping returned by `read_memfd` on a region produced by
`write_once` or `write_once_custom` (with no intervening resize) has
length equal to the size passed to the builder, and the raw mapping of
`raw_memfd` has length equal to its length argument. -/
theorem mapping_length_contract :
    (∀ env size name opts seals f m tr env2 tr0 mp m2 tr2,
        write_once_custom env size name opts seals f = (.ok m, tr) →
        read_memfd env2 m tr0 = (.ok mp, m2, tr2) → mp.len = size)
  ∧ (∀ env size name f m tr env2 tr0 mp m2 tr2,
        write_once env size name f = (.ok m, tr) →
        read_memfd env2 m tr0 = (.ok mp, m2, tr2) → mp.len = size)
  ∧ (∀ env m tr len r m2 tr2,
        raw_memfd env m tr len = (.ok r, m2, tr2) → r.len = len) := by
  refine ⟨?_, ?_, ?_⟩
  · intro env size name opts seals f m tr env2 tr0 mp m2 tr2 h1 h2
    have hlen := (woc_ok_inv h1).1
    have hmp := (read_memfd_ok_inv h2).1
    rw [hmp, hlen]
  · intro env size name f m tr env2 tr0 mp m2 tr2 h1 h2
    have h1' : write_once_custom env size name
        { allowSealing := true, closeOnExec := true } write_once_seals f = (.ok m, tr) := h1
    have hlen := (woc_ok_inv h1').1
    have hmp := (read_memfd_ok_inv h2).1
    rw [hmp, hlen]
  · intro env m tr len r m2 tr2 h
    exact (raw_memfd_ok_inv h).1

/-- Witness for C9: a concrete `write_once`/`read_memfd` chain yields a
4-byte mapping, and a concrete `raw_memfd` call yields a 16-byte raw
mapping. -/
theorem mapping_length_contract_witness :
    (getOk mmapD (read_memfd envAll (getOk memfdD (write_once envAll 4 nm f0).1) []).1).len = 4
  ∧ (getOk mmapRawD (raw_memfd envAll mShrOnly [] 16).1).len = 16 := by
  constructor
  · exact (mapping_length_contract).2.1 envAll 4 nm f0
      (getOk memfdD (write_once envAll 4 nm f0).1) (write_once envAll 4 nm f0).2
      envAll []
      (getOk mmapD (read_memfd envAll (getOk memfdD (write_once envAll 4 nm f0).1) []).1)
      (read_memfd envAll (getOk memfdD (write_once envAll 4 nm f0).1) []).2.1
      (read_memfd envAll (getOk memfdD (write_once envAll 4 nm f0).1) []).2.2
      rfl rfl
  · exact (mapping_length_contract).2.2 envAll mShrOnly [] 16
      (getOk mmapRawD (raw_memfd envAll mShrOnly [] 16).1)
      (raw_memfd envAll mShrOnly [] 16).2.1
      (raw_memfd envAll mShrOnly [] 16).2.2 rfl

/-! ### Claim C10 -/

/-- The trace of every `write_once_custom` run starts with the creation
call carrying the options the builder was given. -/
theorem woc_trace_head (env : Env) (size : Nat) (name : String) (opts : MemfdOptions)
    (seals : List FileSeal) (f : Nat → (Nat → Nat) → Nat → Nat) :
    ∃ rest, (write_once_custom env size name opts seals f).2 =
      Event.create name opts :: rest := by
  by_cases hc : env.createOk = true
  · by_cases hr : env.resizeOk = true
    · by_cases hmo : env.mapOk = true
      · by_cases hsz : size = 0
        · exact ⟨_, by rw [woc_map_fail size name opts seals f hc hr (Or.inr hsz)]⟩
        · by_cases hne : seals = []
          · subst hne
            obtain ⟨m, hEq, _⟩ := woc_success_empty size name opts f hc hr hmo hsz
            exact ⟨_, by rw [hEq]⟩
          · by_cases hso : env.sealOk = true
            · by_cases has : opts.allowSealing = true
              · obtain ⟨m, hEq, _⟩ :=
                  woc_seal_ok size name opts seals f hc hr hmo hsz hne hso has
                exact ⟨_, by rw [hEq]⟩
              · exact ⟨_, by rw [woc_seal_fail size name opts seals f hc hr hmo hsz hne
                  (Or.inr (by simpa using has))]⟩
            · exact ⟨_, by rw [woc_seal_fail size name opts seals f hc hr hmo hsz hne
                (Or.inl (by simpa using hso))]⟩
      · exact ⟨_, by rw [woc_map_fail size name opts seals f hc hr
          (Or.inl (by simpa using hmo))]⟩
    · exact ⟨_, by rw [woc_resize_fail size name opts seals f hc (by simpa using hr)]⟩
  · exact ⟨_, by rw [woc_create_fail size name opts seals f (by simpa using hc)]⟩

/-- Claim C10: `write_once` always creates the underlying region with
sealing allowed and close-on-exec enabled: whatever the environment does,
its trace starts with a creation call carrying exactly those options. -/
theorem write_once_fixed_options (env : Env) (size : Nat) (name : String)
    (f : Nat → (Nat → Nat) → Nat → Nat) :
    ∃ rest, (write_once env size name f).2 =
      Event.create name { allowSealing := true, closeOnExec := true } :: rest :=
  woc_trace_head env size name { allowSealing := true, closeOnExec := true }
    write_once_seals f

end ShmemIpc
